import Mathlib

/-!
Verification of the media-vault planning and migration engine.

This file gives a shallow embedding of the core logic of the repository's
`media_toolkit` package (analyzer.py, migrator.py, verifier.py, models.py)
and proves properties of it.  Machine-level collaborators (the BLAKE3 hash,
regular-expression search, ffprobe metadata, the filesystem) are modelled as
explicit function parameters or association lists; everything else is a
direct translation of the Python source.
-/

namespace MediaVault

/-! ## Path and string utilities -/

/-- Render a relative path given as segments, as `str(Path(...))` does:
the empty path prints as `"."`. -/
def pathStr (segs : List String) : String :=
  if segs.isEmpty then "." else String.intercalate "/" segs

/-- Final path component (`Path.name`). -/
def fname (segs : List String) : String := segs.getLastD ""

/-- Split a path string into segments, dropping empty pieces, as
`Path(s).parts` does for a relative path. -/
def splitPath (s : String) : List String :=
  if s = "." then [] else (s.splitOn "/").filter (fun t => t ≠ "")

/-- Model of `Path(p).relative_to(pre)`: drop the segment prefix `pre`
from `p`; `none` models the `ValueError` raised when `pre` is not a
segment-level prefix of `p`. -/
def dropPrefixSegs : List String → List String → Option (List String)
  | [], p => some p
  | _ :: _, [] => none
  | a :: pre, b :: p => if a = b then dropPrefixSegs pre p else none

/-- Join path segments onto a base string with `/`, as `Path(base) / seg`
joining does (a `.`/empty segment list leaves the base unchanged). -/
def joinSegs (base : String) (segs : List String) : String :=
  segs.foldl (fun b s => b ++ "/" ++ s) base

def listPrefix : List Char → List Char → Bool
  | [], _ => true
  | _ :: _, [] => false
  | a :: pre, b :: l => a = b && listPrefix pre l

/-- `str.startswith(pre)` (character-level, so not necessarily at a path
segment boundary — exactly as the Python source uses it). -/
def strStartsWith (s pre : String) : Bool :=
  listPrefix pre.toList s.toList

/-! ## Dates (the parts of `datetime` the engine uses) -/

/-- Calendar date; models the date part of a Python `datetime`.  Time of
day is never consulted by the engine except through ordering, which the
claims only exercise at date granularity. -/
structure Date where
  year : Nat
  month : Nat
  day : Nat
deriving DecidableEq, Repr

/-- Zero-pad to two digits, as `%02d` / `%m` / `%d` do. -/
def pad2 (n : Nat) : String :=
  if n < 10 then "0" ++ toString n else toString n

/-- Zero-pad to four digits, as `strftime("%Y")` does. -/
def pad4 (n : Nat) : String :=
  if n < 10 then "000" ++ toString n
  else if n < 100 then "00" ++ toString n
  else if n < 1000 then "0" ++ toString n
  else toString n

/-- The `strftime("%Y-%m-%d")` / `datetime.isoformat` date rendering. -/
def dateIso (d : Date) : String :=
  pad4 d.year ++ "-" ++ pad2 d.month ++ "-" ++ pad2 d.day

def isLeap (y : Nat) : Bool :=
  y % 4 = 0 && (y % 100 ≠ 0 || y % 400 = 0)

def daysInMonth (y m : Nat) : Nat :=
  if m = 2 then (if isLeap y then 29 else 28)
  else if m = 4 || m = 6 || m = 9 || m = 11 then 30
  else 31

def digitsToNat (cs : List Char) : Nat :=
  cs.foldl (fun n c => n * 10 + (c.toNat - 48)) 0

/-- Model of `datetime.strptime(s, "%Y%m%d")` on the extracted regex group:
an eight-digit string parsed as year/month/day, `none` on the `ValueError`
for a malformed or non-calendar date (`datetime` requires year ≥ 1 and a
valid day of month, February length depending on leap years). -/
def parseYYYYMMDD (s : String) : Option Date :=
  let cs := s.toList
  if cs.length = 8 ∧ cs.all Char.isDigit then
    let y := digitsToNat (cs.take 4)
    let m := digitsToNat ((cs.drop 4).take 2)
    let d := digitsToNat ((cs.drop 6).take 2)
    if 1 ≤ y ∧ 1 ≤ m ∧ m ≤ 12 ∧ 1 ≤ d ∧ d ≤ daysInMonth y m then
      some ⟨y, m, d⟩
    else none
  else none

/-! ## Glob matching (`fnmatch.fnmatch` on a case-sensitive filesystem)

Only `*` and `?` wildcards are modelled; the configuration patterns the
engine is used with (`duplicates.priority`, `riverside.source_patterns`,
`exclude`) use only those.  As in `fnmatch`, `*` also crosses `/`. -/

def globMatch : List Char → List Char → Bool
  | [], [] => true
  | [], _ :: _ => false
  | '*' :: ps, [] => globMatch ps []
  | '*' :: ps, c :: cs => globMatch ps (c :: cs) || globMatch ('*' :: ps) cs
  | '?' :: _, [] => false
  | '?' :: ps, _ :: cs => globMatch ps cs
  | _ :: _, [] => false
  | p :: ps, c :: cs => p = c && globMatch ps cs
termination_by p s => (p.length, s.length)

/-- `fnmatch.fnmatch(name, pat)`. -/
def fnmatch (name pat : String) : Bool :=
  globMatch pat.toList name.toList

/-! ## Generic stable insertion sort

Python's `list.sort` is a stable sort; any stable sort with respect to the
same boolean total preorder computes the same output list, so we embed it
as stable insertion sort: an element is inserted before the first already
placed element it is `le`-related to, hence equal keys keep input order. -/

def insertLe (le : α → α → Bool) (x : α) : List α → List α
  | [] => [x]
  | y :: l => if le x y then x :: y :: l else y :: insertLe le x l

def insertionSortLe (le : α → α → Bool) : List α → List α
  | [] => []
  | x :: l => insertLe le x (insertionSortLe le l)

/-- Spec-side characterization of "sort, then take the first element":
the first element of the list attaining an `le`-minimal key (ties keep
the earlier element). -/
def firstBestLe (le : α → α → Bool) : α → List α → α
  | x, [] => x
  | x, y :: l => if le x y then firstBestLe le x l else firstBestLe le y l

/-! ## Data model (`models.py`) -/

/-- `MediaFile` from `models.py`.  `source_rel` is the source path relative
to the scan root (the analyzer only ever uses the source path through
`relative_to(source_root)` and `.name`); `target_path` holds the string
rendering of the computed destination, as the analyzer stores a `Path`
whose `str` the duplicate scorer and the manifest use. -/
structure MediaFile where
  source_rel : List String
  size_bytes : Nat
  hash : String
  creation_date : Option Date := none
  device : Option String := none
  target_path : Option String := none
  file_type : String := "unknown"
  is_duplicate : Bool := false
  duplicate_group_id : Option String := none
deriving DecidableEq, Repr

/-! ## Rule configuration (the `device_mappings.yaml` fields the engine reads)

`re.search(filename_pattern, name).group(1)` is external (the `re` module);
it is modelled by the function field `extract`, with `has_pattern` recording
whether `filename_pattern` is present in the configuration at all. -/

structure ProjectCfg where
  source_path : String
  target_path : String
  preserve_structure : Bool
deriving DecidableEq, Repr

structure AudioTracksCfg where
  extract_date_from_filename : Bool
  has_pattern : Bool
  extract : String → Option String
  target_base : String

structure RiversideCfg where
  enabled : Bool
  source_patterns : List String
  device_name : String

structure Config where
  source_roots : List String
  devices : List (String × String)
  file_types : List (String × List String)
  projects : List ProjectCfg
  riverside : RiversideCfg
  audio_tracks : AudioTracksCfg
  min_size_bytes : Nat
  priority : List String

/-! ## Analyzer (`analyzer.py`) -/

/-- `MediaAnalyzer._logical_relpath`: strip a configured source root from
the front of the root-relative path. -/
def logicalRelpath (roots : List String) (rel : List String) : List String :=
  match rel with
  | [] => []
  | p :: rest => if p ∈ roots then rest else p :: rest

/-- Model of `str.lower()`: ASCII lowering (the configured extension
strings it is applied to are ASCII). -/
def toLowerStr (s : String) : String :=
  String.mk (s.toList.map (fun c =>
    if 65 ≤ c.toNat ∧ c.toNat ≤ 90 then Char.ofNat (c.toNat + 32) else c))

/-- `PurePath.suffix`: the final extension including the dot, empty when the
name has no interior dot. -/
def fileSuffix (name : String) : String :=
  let cs := name.toList
  match (List.range cs.length).foldl
      (fun acc i => if cs.getD i ' ' = '.' then some i else acc) none with
  | some i => if 0 < i ∧ i + 1 < cs.length then String.mk (cs.drop i) else ""
  | none => ""

/-- `MediaAnalyzer._get_file_type`: first configured type whose extension
list contains the lower-cased suffix. -/
def getFileType (cfg : Config) (name : String) : String :=
  let ext := toLowerStr (fileSuffix name)
  match cfg.file_types.find?
      (fun tc => (tc.2.map (fun e => toLowerStr e)).contains ext) with
  | some tc => tc.1
  | none => "unknown"

/-- Stable sort of the device mapping by key length, longest first
(`sorted(self.config['devices'].items(), key=lambda x: len(x[0]), reverse=True)`;
Python's `sorted` keeps input order among equal lengths). -/
def sortDevicesByKeyLen (ds : List (String × String)) : List (String × String) :=
  insertionSortLe (fun a b => b.1.length ≤ a.1.length) ds

/-- `MediaAnalyzer._determine_device`. -/
def determineDevice (cfg : Config) (rel : List String) : Option String :=
  let ps := pathStr (logicalRelpath cfg.source_roots rel)
  match (sortDevicesByKeyLen cfg.devices).find?
      (fun kv => ps = kv.1 || strStartsWith ps (kv.1 ++ "/")) with
  | some kv => some kv.2
  | none =>
    if cfg.riverside.enabled &&
        cfg.riverside.source_patterns.any (fun pat => fnmatch ps pat) then
      some cfg.riverside.device_name
    else if strStartsWith ps "audio-tracks" && cfg.audio_tracks.has_pattern then
      some ((((cfg.devices).find? (fun kv => kv.1 = "dji-mic-2")).map
        (fun kv => kv.2)).getD "AUDIO_dji-mic-2")
    else none

/-- `MediaAnalyzer._extract_date_from_filename`, with `re.search` on the
configured pattern modelled by `extract`. -/
def extractDateFromFilename (extract : String → Option String) (name : String) :
    Option Date :=
  match extract name with
  | some ds => parseYYYYMMDD ds
  | none => none

/-- The trailing standard-rule/fallback part of
`MediaAnalyzer._determine_target_path` (analyzer.py lines 150-158). -/
def determineTargetPathStd (mf : MediaFile) : Option String :=
  match mf.device, mf.creation_date with
  | some dv, some c =>
    some ("/Originals/" ++ dv ++ "/" ++ toString c.year ++ "/" ++ dateIso c
      ++ "/" ++ fname mf.source_rel)
  | _, _ => some ("/Originals/_unknown/" ++ fname mf.source_rel)

/-- `MediaAnalyzer._determine_target_path`.  `none` models an exception
propagating out (the `ValueError` from `relative_to` when a project's
source prefix matches as a string but not at a segment boundary, or the
`TypeError` from `re.search(None, ...)` when date extraction is enabled
without a configured pattern); `_process_file` catches it and drops the
file. -/
def determineTargetPath (cfg : Config) (mf : MediaFile) : Option String :=
  let ps := pathStr (logicalRelpath cfg.source_roots mf.source_rel)
  match cfg.projects.find? (fun p => strStartsWith ps p.source_path) with
  | some p =>
    if p.preserve_structure then
      match dropPrefixSegs (splitPath p.source_path)
          (logicalRelpath cfg.source_roots mf.source_rel) with
      | some internal => some (joinSegs p.target_path internal)
      | none => none
    else some (p.target_path ++ "/" ++ fname mf.source_rel)
  | none =>
    if strStartsWith ps "audio-tracks" && cfg.audio_tracks.extract_date_from_filename then
      if cfg.audio_tracks.has_pattern then
        match extractDateFromFilename cfg.audio_tracks.extract (fname mf.source_rel) with
        | some d =>
          some (cfg.audio_tracks.target_base ++ "/" ++ toString d.year ++ "/"
            ++ toString d.year ++ "-" ++ pad2 d.month ++ "-" ++ pad2 d.day
            ++ "/" ++ fname mf.source_rel)
        | none => determineTargetPathStd mf
      else none
    else determineTargetPathStd mf

/-! ## Duplicate detection (`analyzer.py` lines 300-351) -/

/-- Score of one entry in `MediaAnalyzer._select_primary_duplicate`: the
first `duplicates.priority` glob pattern matching `str(target_path)` gives
`len(priority) - index`, no match gives 0.  An entry with no computed
destination is scored against the string `"None"`, as `str(None)` is. -/
def scoreOf (priority : List String) (mf : MediaFile) : Nat :=
  let ps := match mf.target_path with
    | some t => t
    | none => "None"
  match priority.findIdx? (fun pat => fnmatch ps pat) with
  | some i => priority.length - i
  | none => 0

/-- Ordering of creation dates with `None` mapped to `datetime.max`
(`x[1] or datetime.max` in the sort key). -/
def dateLe (a b : Date) : Bool :=
  a.year < b.year || (a.year = b.year &&
    (a.month < b.month || (a.month = b.month && a.day ≤ b.day)))

def dateOptLe : Option Date → Option Date → Bool
  | none, none => true
  | none, some _ => false
  | some _, none => true
  | some a, some b => dateLe a b

/-- The sort key `(-score, creation_date or datetime.max)` of
`_select_primary_duplicate`, as a pair compared lexicographically. -/
def fileKey (priority : List String) (mf : MediaFile) : Nat × Option Date :=
  (scoreOf priority mf, mf.creation_date)

/-- Boolean total preorder corresponding to Python's ascending tuple order
on the key `(-score, date)`: higher score first, then earlier date. -/
def keyLe : Nat × Option Date → Nat × Option Date → Bool
  | (s1, d1), (s2, d2) => s2 < s1 || (s1 = s2 && dateOptLe d1 d2)

def dupLe (priority : List String) (a b : MediaFile) : Bool :=
  keyLe (fileKey priority a) (fileKey priority b)

/-- `MediaAnalyzer._select_primary_duplicate`: score, sort with Python's
stable sort by `(-score, date or datetime.max)`, take the first.  `none`
models the `IndexError` on an empty group (never reached: groups have
length ≥ 2). -/
def selectPrimaryDuplicate (priority : List String) (dups : List MediaFile) :
    Option MediaFile :=
  (insertionSortLe (dupLe priority) dups).head?

/-- Modelled from the spec: the primary of a group is its first member
attaining the best `(score descending, creation timestamp ascending)` key,
remaining ties broken by stable input order. -/
def specPrimary (priority : List String) (x : MediaFile) (l : List MediaFile) :
    MediaFile :=
  firstBestLe (dupLe priority) x l

/-- The per-entry mutation `detect_duplicates` performs on every member of
a group with more than one entry. -/
def markDuplicate (h : String) (mf : MediaFile) : MediaFile :=
  { mf with is_duplicate := true, duplicate_group_id := some h }

/-- `MediaAnalyzer.detect_duplicates` acting on the hash index (an
insertion-ordered `digest -> entries` association list): every member of
every group of size > 1 is marked, groups of size 1 are untouched.  The
selected primary is used by the source only for the duplicate-count and
space-saved statistics, which no claim consults. -/
def detectDuplicates (index : List (String × List MediaFile)) :
    List (String × List MediaFile) :=
  index.map (fun g =>
    if 1 < g.2.length then (g.1, g.2.map (markDuplicate g.1)) else g)

/-! ## Scanning (`analyzer.py` `_process_file` and `scan`) -/

/-- One candidate file as produced by the directory walk: its path relative
to the scan root, its `stat` size, and the filesystem timestamp
(`st_birthtime`/`st_mtime`) used as creation-date fallback. -/
structure ScanItem where
  rel_path : List String
  size_bytes : Nat
  fs_date : Date
deriving DecidableEq, Repr

/-- `MediaAnalyzer._process_file`.  `hashOf` models `compute_file_hash`,
`probe` models `extract_video_metadata(...)['creation_date']`; both are
external collaborators.  Returns `none` when the file is below the
configured minimum size or when destination resolution raises. -/
def processFile (cfg : Config) (hashOf : ScanItem → String)
    (probe : ScanItem → Option Date) (it : ScanItem) : Option MediaFile :=
  if it.size_bytes < cfg.min_size_bytes then none
  else
    let fileType := getFileType cfg (fname it.rel_path)
    let probed := if fileType = "video" then probe it else none
    let creation := match probed with
      | some d => some d
      | none => some it.fs_date
    let mf : MediaFile :=
      { source_rel := it.rel_path, size_bytes := it.size_bytes,
        hash := hashOf it, creation_date := creation,
        device := determineDevice cfg it.rel_path, file_type := fileType }
    match determineTargetPath cfg mf with
    | some t => some { mf with target_path := some t }
    | none => none

/-- Scan accumulator: the analyzer's `self.files`, `self.hash_index` and
`self.total_bytes`, plus `hashed`, an instrumentation list recording each
`compute_file_hash` call with the file's size (the call happens exactly
when the minimum-size check passes). -/
structure ScanState where
  files : List MediaFile
  hash_index : List (String × List MediaFile)
  total_bytes : Nat
  hashed : List (List String × Nat)
deriving Repr

/-- `self.hash_index[hash].append(media_file)` on the insertion-ordered
association list of a `defaultdict(list)`. -/
def hashIndexAdd (index : List (String × List MediaFile)) (h : String)
    (mf : MediaFile) : List (String × List MediaFile) :=
  if (index.find? (fun g => g.1 = h)).isSome then
    index.map (fun g => if g.1 = h then (g.1, g.2 ++ [mf]) else g)
  else index ++ [(h, [mf])]

/-- One iteration of the processing loop in `MediaAnalyzer.scan`: the
dry-run branch builds an unhashed entry directly (no minimum-size check,
no hash-index update), the normal branch goes through `_process_file`. -/
def scanStep (cfg : Config) (hashOf : ScanItem → String)
    (probe : ScanItem → Option Date) (dryRun : Bool) (nowD : Date)
    (s : ScanState) (it : ScanItem) : ScanState :=
  if dryRun then
    let mf0 : MediaFile :=
      { source_rel := it.rel_path, size_bytes := it.size_bytes,
        hash := "DRY_RUN", creation_date := some nowD,
        device := determineDevice cfg it.rel_path,
        file_type := getFileType cfg (fname it.rel_path) }
    let mf := { mf0 with target_path := determineTargetPath cfg mf0 }
    { s with files := s.files ++ [mf],
             total_bytes := s.total_bytes + mf.size_bytes }
  else
    let s1 := if it.size_bytes < cfg.min_size_bytes then s
      else { s with hashed := s.hashed ++ [(it.rel_path, it.size_bytes)] }
    match processFile cfg hashOf probe it with
    | some mf =>
      { s1 with files := s1.files ++ [mf],
                total_bytes := s1.total_bytes + mf.size_bytes,
                hash_index := hashIndexAdd s1.hash_index mf.hash mf }
    | none => s1

/-- `MediaAnalyzer.scan` over the collected media-file candidates. -/
def scan (cfg : Config) (hashOf : ScanItem → String)
    (probe : ScanItem → Option Date) (dryRun : Bool) (nowD : Date)
    (items : List ScanItem) : ScanState :=
  items.foldl (scanStep cfg hashOf probe dryRun nowD) ⟨[], [], 0, []⟩

/-! ## Manifest entries (`generate_manifest` serialization, as read back by
`migrator.py` / `verifier.py`) -/

structure ManifestFile where
  source_path : String
  target_path : String
  size_bytes : Nat
  hash : String
  creation_date : Option String := none
  device : Option String := none
  file_type : Option String := none
  is_duplicate : Bool := false
deriving DecidableEq, Repr

/-- Serialization of one `MediaFile` into the manifest JSON (paths become
strings; entries produced by a scan always carry a computed target). -/
def toManifest (sourceRoot : String) (mf : MediaFile) : ManifestFile :=
  { source_path := sourceRoot ++ "/" ++ pathStr mf.source_rel,
    target_path := mf.target_path.getD "",
    size_bytes := mf.size_bytes,
    hash := mf.hash,
    creation_date := mf.creation_date.map dateIso,
    device := mf.device,
    file_type := some mf.file_type,
    is_duplicate := mf.is_duplicate }

/-! ## Filesystem model

The destination/source filesystem is an association list from path strings
to file contents; a write shadows earlier entries.  The content hash
`compute_file_hash` is an abstract function parameter `h` on contents
(identical bytes give identical digests by construction, which is all the
engine relies on). -/

abbrev FS := List (String × String)

def alookup (k : String) : List (String × α) → Option α
  | [] => none
  | (p, v) :: rest => if p = k then some v else alookup k rest

/-- `str.lstrip('/')` followed by the `/` path join of
`self.target_root / media_file['target_path'].lstrip('/')`. -/
def joinTarget (root tp : String) : String :=
  root ++ "/" ++ String.mk (tp.toList.dropWhile (fun c => c = '/'))

/-! ## Migrator (`migrator.py`) -/

/-- The YAML audit sidecar record written by `MediaMigrator._create_sidecar`. -/
structure Sidecar where
  id : String
  original_path : String
  target_path : String
  device : Option String
  file_type : Option String
  size_bytes : Nat
  creation_date : Option String
  migrated_at : String
  hash_blake3 : String
deriving DecidableEq, Repr

def mkSidecar (e : ManifestFile) (target now : String) : Sidecar :=
  { id := e.hash,
    original_path := e.source_path,
    target_path := target,
    device := e.device,
    file_type := e.file_type,
    size_bytes := e.size_bytes,
    creation_date := e.creation_date,
    migrated_at := now,
    hash_blake3 := e.hash }

/-- Migrator state: destination filesystem, sidecars written this run, and
the counters/error list of `MediaMigrator`. -/
structure MState where
  fs : FS
  sidecars : List Sidecar
  copied : Nat
  copiedBytes : Nat
  skipped : Nat
  failed : Nat
  errors : List String
deriving Repr

/-- The copy part of the loop body of `MediaMigrator.migrate` (everything
after the exists-and-matches check): `shutil.copy2`, re-verification,
sidecar write.  `h` is the content hash; `scErr = some msg` models
`_create_sidecar` raising with message `msg` (an I/O failure while writing
YAML), which the surrounding `try` catches after the copy has already
happened.  A missing source makes `shutil.copy2` raise; a failed
re-verification raises `ValueError("Hash verification failed")`; both land
in the `except` arm that appends `"Failed: {source}: {reason}"` and
increments `failed_count`, and the loop moves on to the next entry. -/
def copyPhase (h : String → String) (t now : String) (scErr : Option String)
    (s : MState) (e : ManifestFile) : MState :=
  match alookup e.source_path s.fs with
  | none =>
    { s with failed := s.failed + 1,
             errors := s.errors ++
               ["Failed: " ++ e.source_path ++ ": No such file or directory"] }
  | some src =>
    if h src = e.hash then
      match scErr with
      | none =>
        { s with fs := (t, src) :: s.fs,
                 sidecars := s.sidecars ++ [mkSidecar e t now],
                 copied := s.copied + 1,
                 copiedBytes := s.copiedBytes + e.size_bytes }
      | some msg =>
        { s with fs := (t, src) :: s.fs,
                 failed := s.failed + 1,
                 errors := s.errors ++
                   ["Failed: " ++ e.source_path ++ ": " ++ msg] }
    else
      { s with fs := (t, src) :: s.fs,
               failed := s.failed + 1,
               errors := s.errors ++
                 ["Failed: " ++ e.source_path ++ ": Hash verification failed"] }

/-- One iteration of the copy loop in `MediaMigrator.migrate` (non-dry-run):
skip when the destination already exists with the recorded digest, else
run the copy phase. -/
def stepEntry (h : String → String) (troot now : String) (scErr : Option String)
    (s : MState) (e : ManifestFile) : MState :=
  match alookup (joinTarget troot e.target_path) s.fs with
  | some c =>
    if h c = e.hash then { s with skipped := s.skipped + 1 }
    else copyPhase h (joinTarget troot e.target_path) now scErr s e
  | none => copyPhase h (joinTarget troot e.target_path) now scErr s e

/-- The plan filter `[f for f in manifest['files'] if not f.get('is_duplicate', False)]`. -/
def filesToMigrate (files : List ManifestFile) : List ManifestFile :=
  files.filter (fun f => !f.is_duplicate)

def migrateFold (h : String → String) (troot now : String)
    (scOracle : ManifestFile → Option String) (es : List ManifestFile)
    (s : MState) : MState :=
  es.foldl (fun s e => stepEntry h troot now (scOracle e) s e) s

/-- `MediaMigrator.migrate` (non-dry-run): fresh counters, the destination
filesystem `fs0` and on-disk sidecars `sdc0` carried over from before. -/
def migrate (h : String → String) (troot now : String)
    (scOracle : ManifestFile → Option String) (files : List ManifestFile)
    (fs0 : FS) (sdc0 : List Sidecar) : MState :=
  migrateFold h troot now scOracle (filesToMigrate files)
    { fs := fs0, sidecars := sdc0, copied := 0, copiedBytes := 0,
      skipped := 0, failed := 0, errors := [] }

/-! ## Verifier (`verifier.py`) -/

structure VState where
  verified : Nat
  missing : Nat
  corrupted : Nat
  errors : List String
deriving DecidableEq, Repr

/-- One iteration of `MigrationVerifier.verify`'s loop.  `readErr = some msg`
models `verify_file_hash` raising (an unreadable existing destination);
the `except` arm appends an error without touching any counter. -/
def verifyStep (h : String → String) (troot : String) (fs : FS)
    (readErr : Option String) (s : VState) (e : ManifestFile) : VState :=
  match alookup (joinTarget troot e.target_path) fs with
  | none =>
    { s with missing := s.missing + 1,
             errors := s.errors ++
               ["Missing: " ++ joinTarget troot e.target_path] }
  | some c =>
    match readErr with
    | some msg =>
      { s with errors := s.errors ++
          ["Error: " ++ joinTarget troot e.target_path ++ ": " ++ msg] }
    | none =>
      if h c = e.hash then { s with verified := s.verified + 1 }
      else
        { s with corrupted := s.corrupted + 1,
                 errors := s.errors ++
                   ["Corrupted: " ++ joinTarget troot e.target_path] }

/-- The verifier's plan filter (same expression as the migrator's). -/
def filesToVerify (files : List ManifestFile) : List ManifestFile :=
  files.filter (fun f => !f.is_duplicate)

/-- `MigrationVerifier.verify` over a plan against a read-only filesystem. -/
def verifyRun (h : String → String) (troot : String) (fs : FS)
    (readOracle : ManifestFile → Option String) (files : List ManifestFile) :
    VState :=
  (filesToVerify files).foldl
    (fun s e => verifyStep h troot fs (readOracle e) s e) ⟨0, 0, 0, []⟩

/-- The condition guarding the `"All verified! Safe to clean SSD."` verdict. -/
def safeToDelete (s : VState) : Bool :=
  s.missing = 0 && s.corrupted = 0

/-! ## Concrete instances used by witnesses and counterexamples -/

/-- Identity content digest used in concrete runs: distinct contents get
distinct digests, matching the collision-resistance contract. -/
def strId : String → String := fun s => s

def noSc : ManifestFile → Option String := fun _ => none

def mfA : MediaFile :=
  { source_rel := ["A", "clip.mp4"], size_bytes := 2000000, hash := "h1",
    creation_date := some ⟨2024, 1, 1⟩,
    target_path := some "/Originals/_unknown/clip.mp4", file_type := "video" }

def mfB : MediaFile := { mfA with source_rel := ["B", "clip.mp4"] }

def mfC : MediaFile :=
  { mfA with source_rel := ["C", "clip.mp4"], creation_date := some ⟨2023, 5, 2⟩ }

/-- Example regex collaborator for the standard audio pattern `(\d{8})`:
the leftmost window of eight consecutive digits. -/
def window8 (l : List Char) : Option String :=
  let w := l.take 8
  if w.length = 8 ∧ w.all Char.isDigit then some (String.mk w) else none

def firstDigits8Aux : List Char → Option String
  | [] => none
  | c :: rest =>
    match window8 (c :: rest) with
    | some s => some s
    | none => firstDigits8Aux rest

def firstDigits8 (s : String) : Option String := firstDigits8Aux s.toList

def cfgAudio : Config :=
  { source_roots := [], devices := [], file_types := [("audio", [".wav"])],
    projects := [], riverside := ⟨false, [], "RIVERSIDE"⟩,
    audio_tracks := ⟨true, true, firstDigits8, "/Originals/AUDIO_dji-mic-2"⟩,
    min_size_bytes := 1048576, priority := [] }

def mfAudio : MediaFile :=
  { source_rel := ["audio-tracks", "rec_20240512_ambient.wav"],
    size_bytes := 5000000, hash := "ha", creation_date := some ⟨2024, 5, 12⟩,
    device := some "AUDIO_dji-mic-2", file_type := "audio" }

def entA : ManifestFile :=
  { source_path := "/s/a", target_path := "/x", size_bytes := 1, hash := "a" }

def entB : ManifestFile := { entA with source_path := "/s/b", hash := "b" }

def fsAB : FS := [("/s/a", "a"), ("/s/b", "b")]

def run1AB : MState := migrate strId "/T" "t0" noSc [entA, entB] fsAB []

def run2AB : MState := migrate strId "/T" "t0" noSc [entA, entB] run1AB.fs run1AB.sidecars

def entW : ManifestFile :=
  { source_path := "/s/w", target_path := "/w.mp4", size_bytes := 4, hash := "cw" }

def fsW : FS := [("/s/w", "cw")]

def runW1 : MState := migrate strId "/T" "t0" noSc [entW] fsW []

def stSkip : MState :=
  { fs := [("/T/w.mp4", "cw"), ("/s/w", "cw")], sidecars := [], copied := 0,
    copiedBytes := 0, skipped := 0, failed := 0, errors := [] }

def stCopy : MState :=
  { fs := [("/s/w", "cw")], sidecars := [], copied := 0, copiedBytes := 0,
    skipped := 0, failed := 0, errors := [] }

def entBad : ManifestFile :=
  { source_path := "/s/bad", target_path := "/bad.mp4", size_bytes := 3,
    hash := "expected" }

def stBad : MState :=
  { fs := [("/s/bad", "actual")], sidecars := [], copied := 0, copiedBytes := 0,
    skipped := 0, failed := 0, errors := [] }

def entV : ManifestFile :=
  { source_path := "/s/v", target_path := "/v.mp4", size_bytes := 2, hash := "cv" }

def fsV : FS := [("/T/v.mp4", "cv")]

def vs0 : VState := ⟨0, 0, 0, []⟩

def d0 : Date := ⟨2024, 2, 2⟩

def cfgScan : Config :=
  { source_roots := [], devices := [("cam", "CAM-1")],
    file_types := [("video", [".mp4"]), ("audio", [".wav"])],
    projects := [], riverside := ⟨false, [], "RIVERSIDE"⟩,
    audio_tracks := ⟨false, false, fun _ => none, "/A"⟩,
    min_size_bytes := 100, priority := [] }

def itSmall : ScanItem := ⟨["cam", "tiny.mp4"], 5, ⟨2024, 1, 2⟩⟩

def itBig : ScanItem := ⟨["cam", "big.mp4"], 500, ⟨2024, 1, 3⟩⟩

/-- The catalog entry the non-dry-run witness scan produces for `itBig`. -/
def mfBig : MediaFile :=
  { source_rel := ["cam", "big.mp4"], size_bytes := 500, hash := "cam/big.mp4",
    creation_date := some ⟨2024, 1, 3⟩, device := some "CAM-1",
    target_path := some "/Originals/CAM-1/2024/2024-01-03/big.mp4",
    file_type := "video" }

def hashW : ScanItem → String := fun it => String.intercalate "/" it.rel_path

def probeW : ScanItem → Option Date := fun _ => none

/-! ## Lemmas about the stable sort and the duplicate-priority order -/

theorem head_insertLe (le : α → α → Bool) (x y : α) (l : List α) :
    (insertLe le x (y :: l)).head? = some (if le x y then x else y) := by
  cases hxy : le x y with
  | true => simp [insertLe, hxy]
  | false => simp [insertLe, hxy]

theorem firstBestLe_interchange (le : α → α → Bool)
    (hTot : ∀ a b, le a b = true ∨ le b a = true)
    (hTrans : ∀ a b c, le a b = true → le b c = true → le a c = true) :
    ∀ (l : List α) (x y : α),
      (if le x (firstBestLe le y l) then x else firstBestLe le y l) =
        (if le x y then firstBestLe le x l else firstBestLe le y l) := by
  intro l
  induction l with
  | nil => intro x y; simp [firstBestLe]
  | cons z zs ih =>
    intro x y
    cases hyz : le y z with
    | true =>
      cases hxy : le x y with
      | true =>
        have hxz : le x z = true := hTrans x y z hxy hyz
        simp [firstBestLe, hyz, hxy, hxz, ih]
      | false =>
        simp [firstBestLe, hyz, hxy, ih]
    | false =>
      have hzy : le z y = true := by
        rcases hTot y z with h | h
        · rw [h] at hyz; cases hyz
        · exact h
      cases hxy : le x y with
      | true =>
        simp [firstBestLe, hyz, hxy, ih]
      | false =>
        cases hxz : le x z with
        | true =>
          have : le x y = true := hTrans x z y hxz hzy
          rw [this] at hxy; cases hxy
        | false =>
          simp [firstBestLe, hyz, hxy, hxz, ih]

theorem head_insertionSortLe (le : α → α → Bool)
    (hTot : ∀ a b, le a b = true ∨ le b a = true)
    (hTrans : ∀ a b c, le a b = true → le b c = true → le a c = true) :
    ∀ (l : List α) (x : α),
      (insertionSortLe le (x :: l)).head? = some (firstBestLe le x l) := by
  intro l
  induction l with
  | nil => intro x; rfl
  | cons y ys ih =>
    intro x
    show (insertLe le x (insertionSortLe le (y :: ys))).head? = _
    cases hs : insertionSortLe le (y :: ys) with
    | nil =>
      have := ih y
      rw [hs] at this
      cases this
    | cons a t =>
      have ha : a = firstBestLe le y ys := by
        have := ih y
        rw [hs] at this
        exact Option.some.inj this
      rw [head_insertLe, ha, firstBestLe_interchange le hTot hTrans ys x y]
      rfl

theorem firstBestLe_mem (le : α → α → Bool) :
    ∀ (l : List α) (x : α), firstBestLe le x l ∈ x :: l := by
  intro l
  induction l with
  | nil => intro x; simp [firstBestLe]
  | cons y ys ih =>
    intro x
    cases h : le x y with
    | true =>
      have hrw : firstBestLe le x (y :: ys) = firstBestLe le x ys := by
        simp [firstBestLe, h]
      rw [hrw]
      rcases List.mem_cons.mp (ih x) with h1 | h1
      · rw [h1]; exact List.mem_cons_self _ _
      · exact List.mem_cons_of_mem _ (List.mem_cons_of_mem _ h1)
    | false =>
      have hrw : firstBestLe le x (y :: ys) = firstBestLe le y ys := by
        simp [firstBestLe, h]
      rw [hrw]
      exact List.mem_cons_of_mem _ (ih y)

theorem firstBestLe_min (le : α → α → Bool)
    (hTot : ∀ a b, le a b = true ∨ le b a = true)
    (hTrans : ∀ a b c, le a b = true → le b c = true → le a c = true) :
    ∀ (l : List α) (x q : α), q ∈ x :: l → le (firstBestLe le x l) q = true := by
  intro l
  induction l with
  | nil =>
    intro x q hq
    rcases List.mem_cons.mp hq with h | h
    · subst h
      simp only [firstBestLe]
      rcases hTot q q with h | h <;> exact h
    · cases h
  | cons y ys ih =>
    intro x q hq
    cases h : le x y with
    | true =>
      have hrw : firstBestLe le x (y :: ys) = firstBestLe le x ys := by
        simp [firstBestLe, h]
      rw [hrw]
      rcases List.mem_cons.mp hq with h1 | h1
      · exact ih x q (by rw [h1]; exact List.mem_cons_self _ _)
      · rcases List.mem_cons.mp h1 with h2 | h2
        · subst h2
          exact hTrans _ x q (ih x x (List.mem_cons_self _ _)) h
        · exact ih x q (List.mem_cons_of_mem _ h2)
    | false =>
      have hyx : le y x = true := by
        rcases hTot x y with h1 | h1
        · rw [h1] at h; cases h
        · exact h1
      have hrw : firstBestLe le x (y :: ys) = firstBestLe le y ys := by
        simp [firstBestLe, h]
      rw [hrw]
      rcases List.mem_cons.mp hq with h1 | h1
      · subst h1
        exact hTrans _ y q (ih y y (List.mem_cons_self _ _)) hyx
      · exact ih y q h1

theorem dateLe_total (a b : Date) : dateLe a b = true ∨ dateLe b a = true := by
  simp only [dateLe, Bool.or_eq_true, Bool.and_eq_true, decide_eq_true_eq]
  omega

theorem dateLe_trans (a b c : Date) :
    dateLe a b = true → dateLe b c = true → dateLe a c = true := by
  simp only [dateLe, Bool.or_eq_true, Bool.and_eq_true, decide_eq_true_eq]
  omega

theorem dateLe_antisymm (a b : Date) :
    dateLe a b = true → dateLe b a = true → a = b := by
  cases a; cases b
  simp only [dateLe, Bool.or_eq_true, Bool.and_eq_true, decide_eq_true_eq,
    Date.mk.injEq]
  omega

theorem dateOptLe_total (a b : Option Date) :
    dateOptLe a b = true ∨ dateOptLe b a = true := by
  cases a <;> cases b <;> simp [dateOptLe]
  exact dateLe_total _ _

theorem dateOptLe_trans (a b c : Option Date) :
    dateOptLe a b = true → dateOptLe b c = true → dateOptLe a c = true := by
  cases a <;> cases b <;> cases c <;> simp [dateOptLe]
  exact dateLe_trans _ _ _

theorem dateOptLe_antisymm (a b : Option Date) :
    dateOptLe a b = true → dateOptLe b a = true → a = b := by
  cases a <;> cases b <;> simp [dateOptLe]
  exact dateLe_antisymm _ _

theorem keyLe_total (a b : Nat × Option Date) :
    keyLe a b = true ∨ keyLe b a = true := by
  obtain ⟨s1, d1⟩ := a
  obtain ⟨s2, d2⟩ := b
  simp only [keyLe, Bool.or_eq_true, Bool.and_eq_true, decide_eq_true_eq]
  rcases Nat.lt_trichotomy s1 s2 with h | h | h
  · right; left; exact h
  · rcases dateOptLe_total d1 d2 with hd | hd
    · left; right; exact ⟨h, hd⟩
    · right; right; exact ⟨h.symm, hd⟩
  · left; left; exact h

theorem keyLe_trans (a b c : Nat × Option Date) :
    keyLe a b = true → keyLe b c = true → keyLe a c = true := by
  obtain ⟨s1, d1⟩ := a
  obtain ⟨s2, d2⟩ := b
  obtain ⟨s3, d3⟩ := c
  simp only [keyLe, Bool.or_eq_true, Bool.and_eq_true, decide_eq_true_eq]
  rintro (h1 | ⟨h1, hd1⟩) (h2 | ⟨h2, hd2⟩)
  · left; omega
  · left; omega
  · left; omega
  · right; exact ⟨h1.trans h2, dateOptLe_trans _ _ _ hd1 hd2⟩

theorem keyLe_antisymm (a b : Nat × Option Date) :
    keyLe a b = true → keyLe b a = true → a = b := by
  obtain ⟨s1, d1⟩ := a
  obtain ⟨s2, d2⟩ := b
  simp only [keyLe, Bool.or_eq_true, Bool.and_eq_true, decide_eq_true_eq,
    Prod.mk.injEq]
  rintro (h1 | ⟨h1, hd1⟩) (h2 | ⟨h2, hd2⟩)
  · omega
  · omega
  · omega
  · exact ⟨h1, dateOptLe_antisymm _ _ hd1 hd2⟩

theorem dupLe_total (priority : List String) (a b : MediaFile) :
    dupLe priority a b = true ∨ dupLe priority b a = true :=
  keyLe_total _ _

theorem dupLe_trans (priority : List String) (a b c : MediaFile) :
    dupLe priority a b = true → dupLe priority b c = true →
    dupLe priority a c = true :=
  keyLe_trans _ _ _

/-- The sort-then-head selection of `_select_primary_duplicate` equals the
spec's first-best-in-input-order characterization. -/
theorem selectPrimary_eq_spec (priority : List String) (x : MediaFile)
    (l : List MediaFile) :
    selectPrimaryDuplicate priority (x :: l) = some (specPrimary priority x l) :=
  head_insertionSortLe (dupLe priority) (dupLe_total priority)
    (dupLe_trans priority) l x

/-! ## Lemmas about the migrator step and fold -/

theorem step_skip (h : String → String) (troot now : String)
    (scErr : Option String) (s : MState) (e : ManifestFile) (c : String)
    (hlook : alookup (joinTarget troot e.target_path) s.fs = some c)
    (hh : h c = e.hash) :
    stepEntry h troot now scErr s e = { s with skipped := s.skipped + 1 } := by
  simp [stepEntry, hlook, hh]

theorem copyPhase_failed_mono (h : String → String) (t now : String)
    (scErr : Option String) (s : MState) (e : ManifestFile) :
    s.failed ≤ (copyPhase h t now scErr s e).failed := by
  unfold copyPhase
  cases alookup e.source_path s.fs with
  | none => simp
  | some src =>
    by_cases hh : h src = e.hash
    · cases scErr <;> simp [hh]
    · simp [hh]

theorem step_failed_mono (h : String → String) (troot now : String)
    (scErr : Option String) (s : MState) (e : ManifestFile) :
    s.failed ≤ (stepEntry h troot now scErr s e).failed := by
  unfold stepEntry
  cases alookup (joinTarget troot e.target_path) s.fs with
  | none => exact copyPhase_failed_mono h _ now scErr s e
  | some c =>
    by_cases hh : h c = e.hash
    · simp [hh]
    · simp only [hh, if_false]
      exact copyPhase_failed_mono h _ now scErr s e

theorem copyPhase_fs_shape (h : String → String) (t now : String)
    (scErr : Option String) (s : MState) (e : ManifestFile) :
    (copyPhase h t now scErr s e).fs = s.fs ∨
    ∃ src, (copyPhase h t now scErr s e).fs = (t, src) :: s.fs := by
  unfold copyPhase
  cases alookup e.source_path s.fs with
  | none => left; rfl
  | some src =>
    by_cases hh : h src = e.hash
    · cases scErr <;> simp [hh]
    · simp [hh]

theorem step_fs_shape (h : String → String) (troot now : String)
    (scErr : Option String) (s : MState) (e : ManifestFile) :
    (stepEntry h troot now scErr s e).fs = s.fs ∨
    ∃ src, (stepEntry h troot now scErr s e).fs =
      (joinTarget troot e.target_path, src) :: s.fs := by
  unfold stepEntry
  cases alookup (joinTarget troot e.target_path) s.fs with
  | none => exact copyPhase_fs_shape h _ now scErr s e
  | some c =>
    by_cases hh : h c = e.hash
    · simp [hh]
    · simp only [hh, if_false]
      exact copyPhase_fs_shape h _ now scErr s e

theorem step_fs_other (h : String → String) (troot now : String)
    (scErr : Option String) (s : MState) (e : ManifestFile) (p : String)
    (hp : p ≠ joinTarget troot e.target_path) :
    alookup p (stepEntry h troot now scErr s e).fs = alookup p s.fs := by
  rcases step_fs_shape h troot now scErr s e with hfs | ⟨src, hfs⟩
  · rw [hfs]
  · rw [hfs]
    simp only [alookup]
    rw [if_neg (fun hq => hp hq.symm)]

theorem copyPhase_good (h : String → String) (t now : String)
    (scErr : Option String) (s : MState) (e : ManifestFile)
    (hf : (copyPhase h t now scErr s e).failed = s.failed) :
    ∃ c, alookup t (copyPhase h t now scErr s e).fs = some c ∧ h c = e.hash := by
  cases hl : alookup e.source_path s.fs with
  | none =>
    exfalso
    simp [copyPhase, hl] at hf
  | some src =>
    by_cases hh : h src = e.hash
    · cases scErr with
      | none => exact ⟨src, by simp [copyPhase, hl, hh, alookup], hh⟩
      | some msg => exact ⟨src, by simp [copyPhase, hl, hh, alookup], hh⟩
    · exfalso
      simp [copyPhase, hl, hh] at hf

theorem step_good (h : String → String) (troot now : String)
    (scErr : Option String) (s : MState) (e : ManifestFile)
    (hf : (stepEntry h troot now scErr s e).failed = s.failed) :
    ∃ c, alookup (joinTarget troot e.target_path)
        (stepEntry h troot now scErr s e).fs = some c ∧ h c = e.hash := by
  cases hl : alookup (joinTarget troot e.target_path) s.fs with
  | some c =>
    by_cases hh : h c = e.hash
    · exact ⟨c, by simp [stepEntry, hl, hh], hh⟩
    · have hstep : stepEntry h troot now scErr s e =
          copyPhase h (joinTarget troot e.target_path) now scErr s e := by
        simp [stepEntry, hl, hh]
      rw [hstep] at hf ⊢
      exact copyPhase_good h _ now scErr s e hf
  | none =>
    have hstep : stepEntry h troot now scErr s e =
        copyPhase h (joinTarget troot e.target_path) now scErr s e := by
      simp [stepEntry, hl]
    rw [hstep] at hf ⊢
    exact copyPhase_good h _ now scErr s e hf

theorem fold_failed_mono (h : String → String) (troot now : String)
    (scOr : ManifestFile → Option String) :
    ∀ (es : List ManifestFile) (s : MState),
      s.failed ≤ (migrateFold h troot now scOr es s).failed := by
  intro es
  induction es with
  | nil => intro s; simp [migrateFold]
  | cons e rest ih =>
    intro s
    have h1 := step_failed_mono h troot now (scOr e) s e
    have h2 := ih (stepEntry h troot now (scOr e) s e)
    simp only [migrateFold, List.foldl_cons] at *
    omega

theorem fold_fs_other (h : String → String) (troot now : String)
    (scOr : ManifestFile → Option String) :
    ∀ (es : List ManifestFile) (s : MState) (p : String),
      (∀ e ∈ es, p ≠ joinTarget troot e.target_path) →
      alookup p (migrateFold h troot now scOr es s).fs = alookup p s.fs := by
  intro es
  induction es with
  | nil => intro s p _; simp [migrateFold]
  | cons e rest ih =>
    intro s p hp
    have h1 : migrateFold h troot now scOr (e :: rest) s =
        migrateFold h troot now scOr rest (stepEntry h troot now (scOr e) s e) := by
      simp [migrateFold]
    rw [h1, ih _ p (fun e' he' => hp e' (List.mem_cons_of_mem _ he'))]
    exact step_fs_other h troot now (scOr e) s e p (hp e (List.mem_cons_self _ _))

theorem fold_good (h : String → String) (troot now : String)
    (scOr : ManifestFile → Option String) :
    ∀ (es : List ManifestFile) (s : MState),
      (es.map (fun e => joinTarget troot e.target_path)).Nodup →
      (migrateFold h troot now scOr es s).failed = s.failed →
      ∀ e ∈ es, ∃ c,
        alookup (joinTarget troot e.target_path)
          (migrateFold h troot now scOr es s).fs = some c ∧ h c = e.hash := by
  intro es
  induction es with
  | nil => intro s _ _ e he; cases he
  | cons e0 rest ih =>
    intro s hnd hfail e he
    rw [List.map_cons, List.nodup_cons] at hnd
    obtain ⟨hnotin, hndrest⟩ := hnd
    have hfold : migrateFold h troot now scOr (e0 :: rest) s =
        migrateFold h troot now scOr rest (stepEntry h troot now (scOr e0) s e0) := by
      simp [migrateFold]
    have hmono1 := step_failed_mono h troot now (scOr e0) s e0
    have hmono2 := fold_failed_mono h troot now scOr rest
      (stepEntry h troot now (scOr e0) s e0)
    rw [hfold] at hfail
    have hstep_failed : (stepEntry h troot now (scOr e0) s e0).failed = s.failed := by
      omega
    have hrest_failed : (migrateFold h troot now scOr rest
        (stepEntry h troot now (scOr e0) s e0)).failed =
        (stepEntry h troot now (scOr e0) s e0).failed := by
      omega
    rcases List.mem_cons.mp he with he0 | herest
    · subst he0
      obtain ⟨c, hc, hch⟩ := step_good h troot now (scOr e) s e hstep_failed
      refine ⟨c, ?_, hch⟩
      have hdist : ∀ e' ∈ rest,
          joinTarget troot e.target_path ≠ joinTarget troot e'.target_path := by
        intro e' he' heq
        exact hnotin (heq.symm ▸ List.mem_map_of_mem _ he')
      rw [hfold, fold_fs_other h troot now scOr rest _ _ hdist]
      exact hc
    · rw [hfold]
      exact ih _ hndrest hrest_failed e herest

theorem fold_all_skip (h : String → String) (troot now : String)
    (scOr : ManifestFile → Option String) :
    ∀ (es : List ManifestFile) (s : MState),
      (∀ e ∈ es, ∃ c,
        alookup (joinTarget troot e.target_path) s.fs = some c ∧ h c = e.hash) →
      migrateFold h troot now scOr es s = { s with skipped := s.skipped + es.length } := by
  intro es
  induction es with
  | nil => intro s _; simp [migrateFold]
  | cons e0 rest ih =>
    intro s hall
    obtain ⟨c, hc, hch⟩ := hall e0 (List.mem_cons_self _ _)
    have hstep : stepEntry h troot now (scOr e0) s e0 =
        { s with skipped := s.skipped + 1 } :=
      step_skip h troot now (scOr e0) s e0 c hc hch
    have hrest : ∀ e ∈ rest, ∃ c,
        alookup (joinTarget troot e.target_path)
          ({ s with skipped := s.skipped + 1 } : MState).fs = some c ∧ h c = e.hash :=
      fun e he => hall e (List.mem_cons_of_mem _ he)
    calc migrateFold h troot now scOr (e0 :: rest) s
        = migrateFold h troot now scOr rest (stepEntry h troot now (scOr e0) s e0) := by
          simp [migrateFold]
      _ = migrateFold h troot now scOr rest { s with skipped := s.skipped + 1 } := by
          rw [hstep]
      _ = { s with skipped := s.skipped + 1 + rest.length } := ih _ hrest
      _ = { s with skipped := s.skipped + (e0 :: rest).length } := by
          rw [List.length_cons,
            show s.skipped + 1 + rest.length = s.skipped + (rest.length + 1) from by omega]

/-! ## Lemmas about the scan -/

theorem processFile_size (cfg : Config) (hashOf : ScanItem → String)
    (probe : ScanItem → Option Date) (it : ScanItem) (mf : MediaFile)
    (hpf : processFile cfg hashOf probe it = some mf) :
    cfg.min_size_bytes ≤ it.size_bytes ∧ mf.size_bytes = it.size_bytes := by
  simp only [processFile] at hpf
  by_cases hsz : it.size_bytes < cfg.min_size_bytes
  · rw [if_pos hsz] at hpf
    cases hpf
  · rw [if_neg hsz] at hpf
    refine ⟨Nat.le_of_not_lt hsz, ?_⟩
    cases hdt : determineTargetPath cfg
        { source_rel := it.rel_path, size_bytes := it.size_bytes,
          hash := hashOf it,
          creation_date :=
            match (if getFileType cfg (fname it.rel_path) = "video"
                then probe it else none) with
            | some d => some d
            | none => some it.fs_date,
          device := determineDevice cfg it.rel_path,
          file_type := getFileType cfg (fname it.rel_path) } with
    | none =>
      rw [hdt] at hpf
      cases hpf
    | some t =>
      rw [hdt] at hpf
      cases hpf
      rfl

theorem hashIndexAdd_mem (index : List (String × List MediaFile)) (hsh : String)
    (mf : MediaFile) (g : String × List MediaFile) (x : MediaFile)
    (hg : g ∈ hashIndexAdd index hsh mf) (hx : x ∈ g.2) :
    (∃ g0 ∈ index, x ∈ g0.2) ∨ x = mf := by
  unfold hashIndexAdd at hg
  by_cases hfind : ((index.find? (fun g => g.1 = hsh)).isSome : Prop)
  · rw [if_pos hfind] at hg
    obtain ⟨g0, hg0, hmap⟩ := List.mem_map.mp hg
    by_cases hkey : g0.1 = hsh
    · rw [if_pos hkey] at hmap
      subst hmap
      rcases List.mem_append.mp hx with hx1 | hx1
      · exact Or.inl ⟨g0, hg0, hx1⟩
      · rcases List.mem_singleton.mp hx1 with rfl
        exact Or.inr rfl
    · rw [if_neg hkey] at hmap
      subst hmap
      exact Or.inl ⟨g0, hg0, hx⟩
  · rw [if_neg hfind] at hg
    rcases List.mem_append.mp hg with hg1 | hg1
    · exact Or.inl ⟨g, hg1, hx⟩
    · rcases List.mem_singleton.mp hg1 with rfl
      exact Or.inr (List.mem_singleton.mp hx)

/-- The minimum-size invariant preserved by each non-dry-run scan step. -/
def ScanInv (n : Nat) (s : ScanState) : Prop :=
  (∀ mf ∈ s.files, n ≤ mf.size_bytes) ∧
  (∀ pr ∈ s.hashed, n ≤ pr.2) ∧
  (∀ g ∈ s.hash_index, ∀ mf ∈ g.2, n ≤ mf.size_bytes)

theorem scanStep_inv (cfg : Config) (hashOf : ScanItem → String)
    (probe : ScanItem → Option Date) (nowD : Date) (s : ScanState)
    (it : ScanItem) (hinv : ScanInv cfg.min_size_bytes s) :
    ScanInv cfg.min_size_bytes (scanStep cfg hashOf probe false nowD s it) := by
  obtain ⟨hfiles, hhashed, hidx⟩ := hinv
  unfold scanStep
  simp only [Bool.false_eq_true, if_false]
  by_cases hsz : it.size_bytes < cfg.min_size_bytes
  · rw [if_pos hsz]
    have hnone : processFile cfg hashOf probe it = none := by
      unfold processFile
      rw [if_pos hsz]
    rw [hnone]
    exact ⟨hfiles, hhashed, hidx⟩
  · rw [if_neg hsz]
    cases hpf : processFile cfg hashOf probe it with
    | none =>
      refine ⟨hfiles, ?_, hidx⟩
      intro pr hpr
      rcases List.mem_append.mp hpr with h1 | h1
      · exact hhashed pr h1
      · rcases List.mem_singleton.mp h1 with rfl
        exact Nat.le_of_not_lt hsz
    | some mf =>
      obtain ⟨hszle, hmfsz⟩ := processFile_size cfg hashOf probe it mf hpf
      refine ⟨?_, ?_, ?_⟩
      · intro mf1 hmf1
        rcases List.mem_append.mp hmf1 with h1 | h1
        · exact hfiles mf1 h1
        · rcases List.mem_singleton.mp h1 with rfl
          omega
      · intro pr hpr
        rcases List.mem_append.mp hpr with h1 | h1
        · exact hhashed pr h1
        · rcases List.mem_singleton.mp h1 with rfl
          exact Nat.le_of_not_lt hsz
      · intro g hg mf1 hmf1
        rcases hashIndexAdd_mem _ _ _ g mf1 hg hmf1 with ⟨g0, hg0, hx⟩ | rfl
        · exact hidx g0 hg0 mf1 hx
        · omega

theorem scanFold_inv (cfg : Config) (hashOf : ScanItem → String)
    (probe : ScanItem → Option Date) (nowD : Date) :
    ∀ (items : List ScanItem) (s : ScanState),
      ScanInv cfg.min_size_bytes s →
      ScanInv cfg.min_size_bytes
        (items.foldl (scanStep cfg hashOf probe false nowD) s) := by
  intro items
  induction items with
  | nil => intro s hs; exact hs
  | cons it rest ih =>
    intro s hs
    rw [List.foldl_cons]
    exact ih _ (scanStep_inv cfg hashOf probe nowD s it hs)

theorem detectDuplicates_size (n : Nat) (index : List (String × List MediaFile))
    (hidx : ∀ g ∈ index, ∀ mf ∈ g.2, n ≤ mf.size_bytes) :
    ∀ g ∈ detectDuplicates index, ∀ mf ∈ g.2, n ≤ mf.size_bytes := by
  intro g hg mf hmf
  unfold detectDuplicates at hg
  obtain ⟨g0, hg0, hmap⟩ := List.mem_map.mp hg
  by_cases hlen : 1 < g0.2.length
  · rw [if_pos hlen] at hmap
    subst hmap
    obtain ⟨mf0, hmf0, hmark⟩ := List.mem_map.mp hmf
    have : mf.size_bytes = mf0.size_bytes := by
      rw [← hmark]
      rfl
    rw [this]
    exact hidx g0 hg0 mf0 hmf0
  · rw [if_neg hlen] at hmap
    subst hmap
    exact hidx g0 hg0 mf hmf

/-! ## Claims -/

/-- C5: for every duplicate group, the primary selected by
`_select_primary_duplicate` (score by the first matching priority glob on
the destination path, `patternCount - matchedIndex`, no match 0; stable
sort by score descending then creation timestamp ascending) is exactly the
first entry of the group attaining the best key — score descending, then
creation timestamp ascending, remaining ties broken by stable input
order. -/
theorem c5_primary_selection (priority : List String) (x : MediaFile)
    (l : List MediaFile) :
    selectPrimaryDuplicate priority (x :: l) = some (specPrimary priority x l) :=
  selectPrimary_eq_spec priority x l

/-- C6 counterexample: primary selection is not order-independent.  Two
entries with identical content, identical (empty-priority) score and
identical creation timestamps: presenting the group in the two orders
selects two different primaries, so the claimed independence from
processing order fails. -/
theorem c6_counterexample :
    selectPrimaryDuplicate [] [mfA, mfB] = some mfA ∧
    selectPrimaryDuplicate [] [mfB, mfA] = some mfB ∧ mfA ≠ mfB := by
  decide

/-- C6 amended: primary selection is a pure function of the presented
group (deterministic), and it is order-independent whenever no two
entries of the group share both score and creation timestamp; only such
ties are broken by input order. -/
theorem c6_order_independent_of_distinct_keys (priority : List String)
    (x y : MediaFile) (l m : List MediaFile)
    (hperm : (x :: l).Perm (y :: m))
    (hinj : ∀ p ∈ x :: l, ∀ q ∈ x :: l,
      fileKey priority p = fileKey priority q → p = q) :
    selectPrimaryDuplicate priority (x :: l) =
      selectPrimaryDuplicate priority (y :: m) := by
  rw [selectPrimary_eq_spec, selectPrimary_eq_spec]
  have hmem1 : specPrimary priority x l ∈ x :: l :=
    firstBestLe_mem (dupLe priority) l x
  have hmem2 : specPrimary priority y m ∈ y :: m :=
    firstBestLe_mem (dupLe priority) m y
  have hmem2x : specPrimary priority y m ∈ x :: l := hperm.mem_iff.mpr hmem2
  have hmem1y : specPrimary priority x l ∈ y :: m := hperm.mem_iff.mp hmem1
  have h12 : dupLe priority (specPrimary priority x l) (specPrimary priority y m) = true :=
    firstBestLe_min (dupLe priority) (dupLe_total priority) (dupLe_trans priority)
      l x _ hmem2x
  have h21 : dupLe priority (specPrimary priority y m) (specPrimary priority x l) = true :=
    firstBestLe_min (dupLe priority) (dupLe_total priority) (dupLe_trans priority)
      m y _ hmem1y
  have hk : fileKey priority (specPrimary priority x l) =
      fileKey priority (specPrimary priority y m) :=
    keyLe_antisymm _ _ h12 h21
  exact congrArg some (hinj _ hmem1 _ hmem2x hk)

/-- C6 witness: two entries with distinct creation timestamps (hence
distinct keys) get the same primary in either presentation order. -/
theorem c6_witness :
    selectPrimaryDuplicate [] [mfA, mfC] = selectPrimaryDuplicate [] [mfC, mfA] :=
  c6_order_independent_of_distinct_keys [] mfA mfC [mfC] [mfA]
    (List.Perm.swap mfC mfA []) (by decide)

/-- C1: evaluation of `detect_duplicates` at a two-entry duplicate group.
The code marks every member of the group `is_duplicate = true` with the
group id — including the entry `_select_primary_duplicate` chooses as
primary (the primary is only consulted for statistics), contradicting the
documented invariant that exactly one member keeps `isDuplicate = false`. -/
theorem c1_detect_marks_primary_too :
    detectDuplicates [("h1", [mfA, mfB])] =
      [("h1", [markDuplicate "h1" mfA, markDuplicate "h1" mfB])] ∧
    selectPrimaryDuplicate [] [mfA, mfB] = some mfA ∧
    (markDuplicate "h1" mfA).is_duplicate = true ∧
    (markDuplicate "h1" mfA).duplicate_group_id = some "h1" := by
  decide

/-- C2 counterexample: two non-duplicate entries with different content
mapped to the same destination path.  The first run is fully successful
(`failed = 0`), yet the second run against the same plan and target copies
again instead of reporting everything skipped-identical. -/
theorem c2_counterexample :
    run1AB.failed = 0 ∧ run2AB.copied ≠ 0 ∧ run2AB.skipped = 0 := by
  decide

/-- C2 amended: for every plan entry whose destination already exists with
a content hash equal to the recorded digest, migrate classifies it
skipped-identical, does not overwrite the destination and writes no
sidecar; and — provided the non-duplicate entries' computed destination
paths are pairwise distinct — running migrate a second time after a fully
successful first run reports zero copied, reports every non-duplicate
entry skipped-identical, and leaves destination content and sidecars
unchanged. -/
theorem c2_migrate_idempotent :
    (∀ (h : String → String) (troot now : String) (scErr : Option String)
        (s : MState) (e : ManifestFile) (c : String),
      alookup (joinTarget troot e.target_path) s.fs = some c →
      h c = e.hash →
      stepEntry h troot now scErr s e = { s with skipped := s.skipped + 1 }) ∧
    (∀ (h : String → String) (troot now : String)
        (sc1 sc2 : ManifestFile → Option String) (files : List ManifestFile)
        (fs0 : FS) (sdc0 : List Sidecar),
      ((filesToMigrate files).map (fun e => joinTarget troot e.target_path)).Nodup →
      (migrate h troot now sc1 files fs0 sdc0).failed = 0 →
      (migrate h troot now sc2 files (migrate h troot now sc1 files fs0 sdc0).fs
          (migrate h troot now sc1 files fs0 sdc0).sidecars).copied = 0 ∧
      (migrate h troot now sc2 files (migrate h troot now sc1 files fs0 sdc0).fs
          (migrate h troot now sc1 files fs0 sdc0).sidecars).skipped =
        (filesToMigrate files).length ∧
      (migrate h troot now sc2 files (migrate h troot now sc1 files fs0 sdc0).fs
          (migrate h troot now sc1 files fs0 sdc0).sidecars).fs =
        (migrate h troot now sc1 files fs0 sdc0).fs ∧
      (migrate h troot now sc2 files (migrate h troot now sc1 files fs0 sdc0).fs
          (migrate h troot now sc1 files fs0 sdc0).sidecars).sidecars =
        (migrate h troot now sc1 files fs0 sdc0).sidecars) := by
  constructor
  · intro h troot now scErr s e c hlook hh
    exact step_skip h troot now scErr s e c hlook hh
  · intro h troot now sc1 sc2 files fs0 sdc0 hnd hfail
    have hgood := fold_good h troot now sc1 (filesToMigrate files)
      { fs := fs0, sidecars := sdc0, copied := 0, copiedBytes := 0,
        skipped := 0, failed := 0, errors := [] } hnd hfail
    have hskip := fold_all_skip h troot now sc2 (filesToMigrate files)
      { fs := (migrate h troot now sc1 files fs0 sdc0).fs,
        sidecars := (migrate h troot now sc1 files fs0 sdc0).sidecars,
        copied := 0, copiedBytes := 0, skipped := 0, failed := 0, errors := [] }
      (fun e he => hgood e he)
    have h2 : migrate h troot now sc2 files
        (migrate h troot now sc1 files fs0 sdc0).fs
        (migrate h troot now sc1 files fs0 sdc0).sidecars =
        { fs := (migrate h troot now sc1 files fs0 sdc0).fs,
          sidecars := (migrate h troot now sc1 files fs0 sdc0).sidecars,
          copied := 0, copiedBytes := 0,
          skipped := 0 + (filesToMigrate files).length, failed := 0,
          errors := [] } := hskip
    rw [h2]
    exact ⟨rfl, by simp, rfl, rfl⟩

/-- C2 witness: a destination already holding content with the recorded
digest is skipped, and a one-entry plan re-run after a clean first run
copies nothing. -/
theorem c2_witness :
    stepEntry strId "/T" "t0" none stSkip entW =
      { stSkip with skipped := stSkip.skipped + 1 } ∧
    (migrate strId "/T" "t0" noSc [entW] runW1.fs runW1.sidecars).copied = 0 :=
  ⟨c2_migrate_idempotent.1 strId "/T" "t0" none stSkip entW "cw"
      (by decide) (by decide),
   ((c2_migrate_idempotent.2 strId "/T" "t0" noSc noSc [entW] fsW []
      (by decide) (by decide)).1)⟩

/-- C4: an entry whose copy fails hash re-verification is recorded failed
with the hash-mismatch error appended, gets no sidecar, the
partially-written destination is left in place with the copied content
(never deleted, never re-copied), and the fold continues with the
remaining entries of the batch. -/
theorem c4_hash_mismatch_failure :
    (∀ (h : String → String) (troot now : String) (scErr : Option String)
        (s : MState) (e : ManifestFile) (src : String),
      (alookup (joinTarget troot e.target_path) s.fs = none ∨
        ∃ c, alookup (joinTarget troot e.target_path) s.fs = some c ∧
          h c ≠ e.hash) →
      alookup e.source_path s.fs = some src →
      h src ≠ e.hash →
      stepEntry h troot now scErr s e =
        { s with fs := (joinTarget troot e.target_path, src) :: s.fs,
                 failed := s.failed + 1,
                 errors := s.errors ++
                   ["Failed: " ++ e.source_path ++ ": Hash verification failed"] } ∧
      alookup (joinTarget troot e.target_path)
        (stepEntry h troot now scErr s e).fs = some src) ∧
    (∀ (h : String → String) (troot now : String)
        (scOr : ManifestFile → Option String) (e : ManifestFile)
        (es : List ManifestFile) (s : MState),
      migrateFold h troot now scOr (e :: es) s =
        migrateFold h troot now scOr es (stepEntry h troot now (scOr e) s e)) := by
  constructor
  · intro h troot now scErr s e src hdest hsrc hmm
    have hstep : stepEntry h troot now scErr s e =
        copyPhase h (joinTarget troot e.target_path) now scErr s e := by
      rcases hdest with hnone | ⟨c, hc, hcne⟩
      · simp [stepEntry, hnone]
      · simp [stepEntry, hc, hcne]
    have hcp : copyPhase h (joinTarget troot e.target_path) now scErr s e =
        { s with fs := (joinTarget troot e.target_path, src) :: s.fs,
                 failed := s.failed + 1,
                 errors := s.errors ++
                   ["Failed: " ++ e.source_path ++ ": Hash verification failed"] } := by
      simp [copyPhase, hsrc, hmm]
    refine ⟨by rw [hstep, hcp], ?_⟩
    rw [hstep, hcp]
    simp [alookup]
  · intro h troot now scOr e es s
    simp [migrateFold]

/-- C4 witness: a concrete entry with a recorded digest that does not
match the copied content. -/
theorem c4_witness :
    stepEntry strId "/T" "t0" none stBad entBad =
      { stBad with fs := (joinTarget "/T" entBad.target_path, "actual") :: stBad.fs,
                   failed := stBad.failed + 1,
                   errors := stBad.errors ++
                     ["Failed: " ++ entBad.source_path ++ ": Hash verification failed"] } :=
  (c4_hash_mismatch_failure.1 strId "/T" "t0" none stBad entBad "actual"
    (Or.inl (by decide)) (by decide) (by decide)).1

/-- C9: a successful copy (destination absent or holding mismatching
content, source readable, re-verification passing) appends exactly one
sidecar record carrying the digest as id, the original path, the
destination path, device, file type, size, creation timestamp and the
migration timestamp; if instead the sidecar write raises, the entry is
recorded failed but the completed copy is left in place — the destination
still holds the copied content and is not rolled back. -/
theorem c9_sidecar_on_copy :
    ∀ (h : String → String) (troot now : String) (s : MState)
      (e : ManifestFile) (src : String),
      (alookup (joinTarget troot e.target_path) s.fs = none ∨
        ∃ c, alookup (joinTarget troot e.target_path) s.fs = some c ∧
          h c ≠ e.hash) →
      alookup e.source_path s.fs = some src →
      h src = e.hash →
      (stepEntry h troot now none s e =
        { s with fs := (joinTarget troot e.target_path, src) :: s.fs,
                 sidecars := s.sidecars ++
                   [mkSidecar e (joinTarget troot e.target_path) now],
                 copied := s.copied + 1,
                 copiedBytes := s.copiedBytes + e.size_bytes }) ∧
      (mkSidecar e (joinTarget troot e.target_path) now).id = e.hash ∧
      (mkSidecar e (joinTarget troot e.target_path) now).original_path =
        e.source_path ∧
      (mkSidecar e (joinTarget troot e.target_path) now).target_path =
        joinTarget troot e.target_path ∧
      (mkSidecar e (joinTarget troot e.target_path) now).device = e.device ∧
      (mkSidecar e (joinTarget troot e.target_path) now).file_type = e.file_type ∧
      (mkSidecar e (joinTarget troot e.target_path) now).size_bytes = e.size_bytes ∧
      (mkSidecar e (joinTarget troot e.target_path) now).creation_date =
        e.creation_date ∧
      (mkSidecar e (joinTarget troot e.target_path) now).migrated_at = now ∧
      (∀ msg, stepEntry h troot now (some msg) s e =
        { s with fs := (joinTarget troot e.target_path, src) :: s.fs,
                 failed := s.failed + 1,
                 errors := s.errors ++
                   ["Failed: " ++ e.source_path ++ ": " ++ msg] } ∧
        alookup (joinTarget troot e.target_path)
          (stepEntry h troot now (some msg) s e).fs = some src) := by
  intro h troot now s e src hdest hsrc hh
  have hstep : ∀ scErr, stepEntry h troot now scErr s e =
      copyPhase h (joinTarget troot e.target_path) now scErr s e := by
    intro scErr
    rcases hdest with hnone | ⟨c, hc, hcne⟩
    · simp [stepEntry, hnone]
    · simp [stepEntry, hc, hcne]
  refine ⟨?_, rfl, rfl, rfl, rfl, rfl, rfl, rfl, rfl, ?_⟩
  · rw [hstep none]
    simp [copyPhase, hsrc, hh]
  · intro msg
    constructor
    · rw [hstep (some msg)]
      simp [copyPhase, hsrc, hh]
    · rw [hstep (some msg)]
      have : copyPhase h (joinTarget troot e.target_path) now (some msg) s e =
          { s with fs := (joinTarget troot e.target_path, src) :: s.fs,
                   failed := s.failed + 1,
                   errors := s.errors ++
                     ["Failed: " ++ e.source_path ++ ": " ++ msg] } := by
        simp [copyPhase, hsrc, hh]
      rw [this]
      simp [alookup]

/-- C9 witness: a concrete successful copy appends exactly one sidecar. -/
theorem c9_witness :
    stepEntry strId "/T" "t0" none stCopy entW =
      { stCopy with fs := (joinTarget "/T" entW.target_path, "cw") :: stCopy.fs,
                    sidecars := stCopy.sidecars ++
                      [mkSidecar entW (joinTarget "/T" entW.target_path) "t0"],
                    copied := stCopy.copied + 1,
                    copiedBytes := stCopy.copiedBytes + entW.size_bytes } :=
  (c9_sidecar_on_copy strId "/T" "t0" stCopy entW "cw"
    (Or.inl (by decide)) (by decide) (by decide)).1

/-- When no project rule matches and the audio-tracks date rule does not
fire (wrong prefix, extraction disabled, or no parseable date), resolution
falls through to the standard/fallback rules. -/
theorem dtp_fallthrough (cfg : Config) (mf : MediaFile)
    (hfind : cfg.projects.find? (fun p =>
      strStartsWith (pathStr (logicalRelpath cfg.source_roots mf.source_rel))
        p.source_path) = none)
    (hmiss : strStartsWith (pathStr (logicalRelpath cfg.source_roots mf.source_rel))
        "audio-tracks" = false ∨
      cfg.audio_tracks.extract_date_from_filename = false ∨
      (cfg.audio_tracks.has_pattern = true ∧
        extractDateFromFilename cfg.audio_tracks.extract (fname mf.source_rel) =
          none)) :
    determineTargetPath cfg mf = determineTargetPathStd mf := by
  rcases hmiss with hsw | hflag | ⟨hpat, hex⟩
  · simp [determineTargetPath, hfind, hsw]
  · simp [determineTargetPath, hfind, hflag]
  · cases hcond : (strStartsWith
        (pathStr (logicalRelpath cfg.source_roots mf.source_rel)) "audio-tracks"
        && cfg.audio_tracks.extract_date_from_filename) with
    | true => simp [determineTargetPath, hfind, hcond, hpat, hex]
    | false => simp [determineTargetPath, hfind, hcond]

/-- C7: destination resolution tries rules in a fixed order with the first
hit winning: a matching project rule first (shown here for the flattening
variant); with no project match, the audio-tracks date rule — a logical
path starting with `audio-tracks`, extraction enabled and a filename date
parsing as YYYYMMDD yields `targetBase/year/year-mm-dd/filename`, while a
missed prefix, disabled extraction or malformed date falls through without
error; then, for an entry with both device and creation timestamp known,
`/Originals/<device>/<year>/<year-mm-dd>/filename`; otherwise the fallback
`/Originals/_unknown/filename`. -/
theorem c7_rule_order (cfg : Config) (mf : MediaFile)
    (hpat : cfg.audio_tracks.has_pattern = true) :
    (∀ pr, cfg.projects.find? (fun p =>
        strStartsWith (pathStr (logicalRelpath cfg.source_roots mf.source_rel))
          p.source_path) = some pr →
      pr.preserve_structure = false →
      determineTargetPath cfg mf =
        some (pr.target_path ++ "/" ++ fname mf.source_rel)) ∧
    (cfg.projects.find? (fun p =>
        strStartsWith (pathStr (logicalRelpath cfg.source_roots mf.source_rel))
          p.source_path) = none →
      ((∀ d, strStartsWith
            (pathStr (logicalRelpath cfg.source_roots mf.source_rel))
            "audio-tracks" = true →
          cfg.audio_tracks.extract_date_from_filename = true →
          extractDateFromFilename cfg.audio_tracks.extract (fname mf.source_rel) =
            some d →
          determineTargetPath cfg mf =
            some (cfg.audio_tracks.target_base ++ "/" ++ toString d.year ++ "/"
              ++ toString d.year ++ "-" ++ pad2 d.month ++ "-" ++ pad2 d.day
              ++ "/" ++ fname mf.source_rel)) ∧
        ((strStartsWith (pathStr (logicalRelpath cfg.source_roots mf.source_rel))
            "audio-tracks" = false ∨
          cfg.audio_tracks.extract_date_from_filename = false ∨
          extractDateFromFilename cfg.audio_tracks.extract (fname mf.source_rel) =
            none) →
          ((∀ dv c, mf.device = some dv → mf.creation_date = some c →
            determineTargetPath cfg mf =
              some ("/Originals/" ++ dv ++ "/" ++ toString c.year ++ "/"
                ++ dateIso c ++ "/" ++ fname mf.source_rel)) ∧
           ((mf.device = none ∨ mf.creation_date = none) →
            determineTargetPath cfg mf =
              some ("/Originals/_unknown/" ++ fname mf.source_rel)))))) := by
  constructor
  · intro pr hfind hps
    simp [determineTargetPath, hfind, hps]
  · intro hfind
    constructor
    · intro d hsw hflag hex
      simp [determineTargetPath, hfind, hsw, hflag, hpat, hex]
    · intro hmiss
      have hstd : determineTargetPath cfg mf = determineTargetPathStd mf := by
        apply dtp_fallthrough cfg mf hfind
        rcases hmiss with h | h | h
        · exact Or.inl h
        · exact Or.inr (Or.inl h)
        · exact Or.inr (Or.inr ⟨hpat, h⟩)
      constructor
      · intro dv c hdev hdate
        rw [hstd]
        simp [determineTargetPathStd, hdev, hdate]
      · intro hnone
        rw [hstd]
        rcases hnone with h | h
        · simp [determineTargetPathStd, h]
        · cases hdev : mf.device with
          | none => simp [determineTargetPathStd, hdev]
          | some dv => simp [determineTargetPathStd, hdev, h]

/-- C7 witness: Scenario B — `audio-tracks/rec_20240512_ambient.wav` with
the eight-digit date pattern resolves to
`targetBase/2024/2024-05-12/rec_20240512_ambient.wav`. -/
theorem c7_witness :
    determineTargetPath cfgAudio mfAudio =
      some (cfgAudio.audio_tracks.target_base ++ "/" ++ toString (2024 : Nat)
        ++ "/" ++ toString (2024 : Nat) ++ "-" ++ pad2 5 ++ "-" ++ pad2 12
        ++ "/" ++ fname mfAudio.source_rel) :=
  ((c7_rule_order cfgAudio mfAudio rfl).2 (by decide)).1 ⟨2024, 5, 12⟩
    (by decide) rfl (by decide)

/-- C3: the verifier classifies a non-duplicate entry as missing when the
destination does not exist, otherwise (when re-hashing succeeds) as
corrupted when the recomputed hash differs from the recorded digest,
otherwise as verified; and the safe-to-delete verdict holds exactly when
the missing count and the corrupted count are both zero. -/
theorem c3_verifier_classification :
    (∀ (h : String → String) (troot : String) (fs : FS)
        (readErr : Option String) (s : VState) (e : ManifestFile),
      alookup (joinTarget troot e.target_path) fs = none →
      verifyStep h troot fs readErr s e =
        { s with missing := s.missing + 1,
                 errors := s.errors ++
                   ["Missing: " ++ joinTarget troot e.target_path] }) ∧
    (∀ (h : String → String) (troot : String) (fs : FS) (s : VState)
        (e : ManifestFile) (c : String),
      alookup (joinTarget troot e.target_path) fs = some c →
      h c ≠ e.hash →
      verifyStep h troot fs none s e =
        { s with corrupted := s.corrupted + 1,
                 errors := s.errors ++
                   ["Corrupted: " ++ joinTarget troot e.target_path] }) ∧
    (∀ (h : String → String) (troot : String) (fs : FS) (s : VState)
        (e : ManifestFile) (c : String),
      alookup (joinTarget troot e.target_path) fs = some c →
      h c = e.hash →
      verifyStep h troot fs none s e = { s with verified := s.verified + 1 }) ∧
    (∀ s : VState, safeToDelete s = true ↔ (s.missing = 0 ∧ s.corrupted = 0)) := by
  refine ⟨?_, ?_, ?_, ?_⟩
  · intro h troot fs readErr s e hnone
    simp [verifyStep, hnone]
  · intro h troot fs s e c hc hne
    simp [verifyStep, hc, hne]
  · intro h troot fs s e c hc heq
    simp [verifyStep, hc, heq]
  · intro s
    simp [safeToDelete]

/-- C3 witness: an existing destination with the recorded digest is
verified, and an all-clean state is safe to delete. -/
theorem c3_witness :
    verifyStep strId "/T" fsV none vs0 entV =
      { vs0 with verified := vs0.verified + 1 } ∧
    safeToDelete vs0 = true :=
  ⟨c3_verifier_classification.2.2.1 strId "/T" fsV vs0 entV "cv"
      (by decide) (by decide),
   (c3_verifier_classification.2.2.2 vs0).mpr ⟨rfl, rfl⟩⟩

/-- C10: when re-hashing an existing destination raises, the verifier
appends a per-file error but increments neither the missing, corrupted nor
verified counts; consequently a run in which every entry errors still
reports `safeToDelete = true` with zero entries verified. -/
theorem c10_exception_skips_counts :
    (∀ (h : String → String) (troot : String) (fs : FS) (msg : String)
        (s : VState) (e : ManifestFile) (c : String),
      alookup (joinTarget troot e.target_path) fs = some c →
      verifyStep h troot fs (some msg) s e =
        { s with errors := s.errors ++
            ["Error: " ++ joinTarget troot e.target_path ++ ": " ++ msg] }) ∧
    (safeToDelete (verifyRun strId "/T" fsV (fun _ => some "unreadable") [entV]) =
        true ∧
      (verifyRun strId "/T" fsV (fun _ => some "unreadable") [entV]).verified = 0 ∧
      (verifyRun strId "/T" fsV (fun _ => some "unreadable") [entV]).errors ≠ []) := by
  constructor
  · intro h troot fs msg s e c hc
    simp [verifyStep, hc]
  · refine ⟨by decide, by decide, by decide⟩

/-- C10 witness: a concrete unreadable destination leaves every counter
unchanged. -/
theorem c10_witness :
    verifyStep strId "/T" fsV (some "unreadable") vs0 entV =
      { vs0 with errors := vs0.errors ++
          ["Error: " ++ joinTarget "/T" entV.target_path ++ ": " ++ "unreadable"] } :=
  c10_exception_skips_counts.1 strId "/T" fsV "unreadable" vs0 entV "cv" (by decide)

/-- C8 amended: in a non-dry-run scan, every file below the configured
minimum duplicate size is excluded entirely — every catalog entry and every
hashed file has size at least the minimum, so such a file is never hashed,
never appears in any group of the duplicate detector's output (hence is
never marked duplicate), and never reaches the migrator's work list built
from the plan. -/
theorem c8_min_size_exclusion (cfg : Config) (hashOf : ScanItem → String)
    (probe : ScanItem → Option Date) (nowD : Date) (items : List ScanItem)
    (root : String) :
    (∀ mf ∈ (scan cfg hashOf probe false nowD items).files,
      cfg.min_size_bytes ≤ mf.size_bytes) ∧
    (∀ pr ∈ (scan cfg hashOf probe false nowD items).hashed,
      cfg.min_size_bytes ≤ pr.2) ∧
    (∀ g ∈ detectDuplicates (scan cfg hashOf probe false nowD items).hash_index,
      ∀ mf ∈ g.2, cfg.min_size_bytes ≤ mf.size_bytes) ∧
    (∀ f ∈ filesToMigrate
        ((scan cfg hashOf probe false nowD items).files.map (toManifest root)),
      cfg.min_size_bytes ≤ f.size_bytes) := by
  have hinv : ScanInv cfg.min_size_bytes (scan cfg hashOf probe false nowD items) := by
    refine scanFold_inv cfg hashOf probe nowD items ⟨[], [], 0, []⟩ ?_
    refine ⟨?_, ?_, ?_⟩ <;> intro x hx <;> cases hx
  obtain ⟨hfiles, hhashed, hidx⟩ := hinv
  refine ⟨hfiles, hhashed, detectDuplicates_size _ _ hidx, ?_⟩
  intro f hf
  obtain ⟨mf, hmf, heq⟩ := List.mem_map.mp (List.mem_of_mem_filter hf)
  have : f.size_bytes = mf.size_bytes := by rw [← heq]; rfl
  rw [this]
  exact hfiles mf hmf

/-- C8 witness: a two-item scan keeps only the file above the minimum
size, and that surviving entry satisfies the size bound. -/
theorem c8_witness :
    cfgScan.min_size_bytes ≤ mfBig.size_bytes :=
  (c8_min_size_exclusion cfgScan hashW probeW d0 [itSmall, itBig] "/S").1 mfBig
    (by
      rw [show (scan cfgScan hashW probeW false d0 [itSmall, itBig]).files =
        [mfBig] from by decide]
      exact List.mem_cons_self _ _)

/-- C8 counterexample: in a dry-run scan the minimum-size check is
bypassed — a file of 5 bytes (below the configured minimum of 100) is
placed in the plan with `is_duplicate = false`, so the plan built from
this scan hands it to the migrator's work list, contradicting the claim
for every scanned file. -/
theorem c8_counterexample :
    itSmall.size_bytes < cfgScan.min_size_bytes ∧
    ((scan cfgScan hashW probeW true d0 [itSmall]).files.map
      (fun mf => mf.source_rel)) = [["cam", "tiny.mp4"]] ∧
    (filesToMigrate ((scan cfgScan hashW probeW true d0 [itSmall]).files.map
      (toManifest "/S"))).length = 1 := by
  decide

end MediaVault
